import Mathlib

/-!
Verification development for the pointillism rendering algorithm in
`src/backend/algorithms/ronchetti.py`.

The Python module is shallowly embedded: pure functions become Lean
functions, numpy uint8 arithmetic becomes explicit `% 256` arithmetic on
`Nat`, Python `%` on integers becomes `Int` `%` (both are Euclidean mod for
positive moduli), and float arithmetic is modelled over the exact reals.
The one place where IEEE behaviour is observable in the module is the
normalization `distances /= summ[:, None]` in `compute_color_probabilities`,
which silently produces a NaN row whenever a row of `summ` is zero (0/0);
that is modelled by an `Option`-valued row, `none` standing for the all-NaN
row.  External library calls (PIL decoding, cv2 filters and the ellipse
rasterizer, sklearn KMeans) are not part of the module; they are taken as
parameters of the embedding, except where their documented input validation
decides a claim, in which case they are modelled concretely and the model
is documented at the definition.
-/

/-- A color triple as stored in the numpy arrays of the module (BGR or RGB
order depending on context, 8-bit channels). -/
abbrev Color := Nat × Nat × Nat

/-- A dense height-by-width image buffer.  In-place cv2 mutation can never
change the buffer shape, so operations that model in-place pixel writes
transform only the `pix` field. -/
structure Img where
  h : Nat
  w : Nat
  pix : Nat → Nat → Color

/-- Models `numpy.ndarray.astype(np.uint8)` applied to one color (C-style
truncating conversion to an unsigned byte). -/
def castU8 (c : Color) : Color := (c.1 % 256, c.2.1 % 256, c.2.2 % 256)

/-- Models Python `range(0, stop, step)` for `step ≥ 1` : the list
`[0, step, 2*step, ...]` of all multiples of `step` below `stop`. -/
def pyRange (stop step : Nat) : List Nat :=
  (List.range ((stop + step - 1) / step)).map (· * step)

/-! ### regulate (ronchetti.py lines 93-101)

`regulate` converts an image BGR → HSV_FULL, shifts the three channels, and
converts back.  The two cv2 color-space conversions are external; the
channel arithmetic in between is the module's own code and is embedded in
`regulateHSV`.  The numpy facts that fix its semantics:

* `hsv[:, :, 0] += hue` with a non-negative Python int that fits in a byte
  is performed in uint8, i.e. wraps modulo 256 (the module pre-adjusts a
  negative `hue` to `255 + hue` precisely so that the in-place add is legal);
* `hsv[:, :, 1] + saturation` with a non-negative byte-sized Python int
  stays uint8 (value-based promotion in numpy 1.x, weak promotion in
  numpy 2.x), so the sum wraps modulo 256 *before* `np.clip(·, 0, 255)`
  sees it, and the clip is a no-op.

The embedding is stated for the offsets the module actually passes
(`hue ∈ [-255, 255]`, `sat, lum ∈ [0, 255]`, from the extension list
`[(0, 50, 0), (15, 30, 0), (-15, 30, 0)]`). -/

/-- HSV-space channel arithmetic of `regulate`: the translation of
lines 96-100 of ronchetti.py under the numpy semantics described above. -/
def regulateHSV (c : Color) (hue : Int) (sat lum : Nat) : Color :=
  let hue2 : Int := if hue < 0 then 255 + hue else hue
  ((c.1 + hue2.toNat) % 256,
   min 255 (max 0 ((c.2.1 + sat) % 256)),
   min 255 (max 0 ((c.2.2 + lum) % 256)))

/-- The transform the C6 claim describes, written from the spec's words
(for comparison with `regulateHSV`, which is written from the code): the
hue offset is added with true wraparound modulo the full hue range 256,
and the saturation and luminosity sums are clamped to [0, 255]. -/
def regulateHSV_claimed (c : Color) (hue : Int) (sat lum : Nat) : Color :=
  ((((c.1 : Int) + hue) % 256).toNat,
   min 255 (c.2.1 + sat),
   min 255 (c.2.2 + lum))

/-- Embedding of `regulate` applied to a single palette color: convert
BGR → HSV_FULL (external cv2 conversion, a parameter), shift channels,
convert back. -/
def regulate (bgr2hsv hsv2bgr : Color → Color) (c : Color)
    (hue : Int) (sat lum : Nat) : Color :=
  hsv2bgr (regulateHSV (bgr2hsv c) hue sat lum)

/-! ### ColorPalette (ronchetti.py lines 103-143) -/

/-- Ordered color table with the clustering-derived base length. -/
structure ColorPalette where
  colors : List Color
  base_len : Nat

/-- Translation of `ColorPalette.__init__`: `base_len` defaults to the
number of colors when the given value is not positive. -/
def ColorPalette.make (colors : List Color) (bl : Nat := 0) : ColorPalette :=
  ⟨colors, if bl > 0 then bl else colors.length⟩

/-- Modelled from the library contract of `sklearn.cluster.KMeans` (the
clustering call in `ColorPalette.from_image` is external to the module):
`fit` validates that `n_clusters ≥ 1` and that the number of samples is at
least `n_clusters`, raising `ValueError` otherwise, and on success
`cluster_centers_` holds exactly `n_clusters` centroids.  The centroid
values themselves are irrelevant to every claim and are modelled by a
deterministic placeholder of the right length (`random_state=42`,
`n_init=10` make the real call deterministic as well). -/
def kmeansCenters (data : List Color) (n : Int) : Except String (List Color) :=
  if n < 1 then
    .error "n_clusters must be an int in the range [1, inf)"
  else if data.length < n.toNat then
    .error "n_samples should be >= n_clusters"
  else
    .ok ((data ++ List.replicate n.toNat (0, 0, 0)).take n.toNat)

/-- Row-major flattening `img.reshape(-1, 3)` of an image into its pixel
list. -/
def imgData (im : Img) : List Color :=
  (List.range im.h).flatMap (fun i => (List.range im.w).map (fun j => im.pix i j))

/-- Translation of `limit_size`: images whose long edge exceeds `max_size`
are scaled down by `max_size / max(h, w)` (sizes floor as in `int(...)`);
the resampled pixel content is the external `cv2.resize`, a parameter. -/
def limit_size (resizePix : Nat → Nat → Img → (Nat → Nat → Color))
    (im : Img) (max_size : Nat) : Img :=
  if max_size = 0 then im
  else if max im.h im.w ≤ max_size then im
  else
    let nh := im.h * max_size / max im.h im.w
    let nw := im.w * max_size / max im.h im.w
    ⟨nh, nw, resizePix nw nh im⟩

/-- Translation of `ColorPalette.from_image`: downscale, flatten, cluster;
the `ColorPalette` is built with the default `base_len = 0`, so its
`base_len` ends up equal to the cluster count. -/
def ColorPalette.from_image (resizePix : Nat → Nat → Img → (Nat → Nat → Color))
    (img : Img) (n : Int) : Except String ColorPalette :=
  match kmeansCenters (imgData (limit_size resizePix img 200)) n with
  | .error e => .error e
  | .ok cs => .ok (ColorPalette.make cs)

/-- Translation of `ColorPalette.extend`: the base colors cast to uint8,
followed by one contiguous regulated block per extension triple. -/
def ColorPalette.extend (bgr2hsv hsv2bgr : Color → Color)
    (p : ColorPalette) (extensions : List (Int × Nat × Nat)) : ColorPalette :=
  ColorPalette.make
    (p.colors.map castU8 ++
      extensions.flatMap (fun e =>
        (p.colors.map castU8).map (fun c => regulate bgr2hsv hsv2bgr c e.1 e.2.1 e.2.2)))
    p.base_len

/-- The extension list passed by `create_pointillism` (line 260). -/
def defaultExtensions : List (Int × Nat × Nat) := [(0, 50, 0), (15, 30, 0), (-15, 30, 0)]

/-! ### VectorField (ronchetti.py lines 145-172)

Grids of 32-bit float samples are modelled as total functions over the
exact reals.  cv2's filters evaluate a correlation of the kernel with the
image extended past its edges by the default `BORDER_REFLECT_101` rule,
which is embedded concretely by `reflect101`. -/

/-- Index folding of cv2's default border mode `BORDER_REFLECT_101`
(mirror without repeating the edge sample: `-1 ↦ 1`, `n ↦ n - 2`). -/
def reflect101 (n : Nat) (i : Int) : Nat :=
  if n ≤ 1 then 0
  else
    let p : Nat := 2 * n - 2
    let m : Nat := (i % (p : Int)).toNat
    if m < n then m else p - m

/-- Border extension of a real-valued grid by `BORDER_REFLECT_101`. -/
def extend101 (h w : Nat) (g : Nat → Nat → ℝ) : Int → Int → ℝ :=
  fun i j => g (reflect101 h i) (reflect101 w j)

/-- Correlation of a `(2r+1) × (2r+1)` kernel with a border-extended grid,
the computation cv2's fixed-kernel filters perform at each output pixel. -/
noncomputable def conv2d (r : Nat) (ker : Nat → Nat → ℝ) (f : Int → Int → ℝ)
    (i j : Int) : ℝ :=
  ∑ a ∈ Finset.range (2 * r + 1), ∑ b ∈ Finset.range (2 * r + 1),
    ker a b * f (i + a - r) (j + b - r)

/-- Horizontal Scharr derivative kernel (`cv2.Scharr(gray, CV_32F, 1, 0)`),
rows indexed first. -/
def scharrKx : Nat → Nat → ℝ
  | 0, 0 => -3 | 0, 2 => 3
  | 1, 0 => -10 | 1, 2 => 10
  | 2, 0 => -3 | 2, 2 => 3
  | _, _ => 0

/-- Vertical Scharr derivative kernel (`cv2.Scharr(gray, CV_32F, 0, 1)`). -/
def scharrKy : Nat → Nat → ℝ
  | 0, 0 => -3 | 0, 1 => -10 | 0, 2 => -3
  | 2, 0 => 3 | 2, 1 => 10 | 2, 2 => 3
  | _, _ => 0

/-- Gradient vector field over an `h × w` luminance grid. -/
structure VectorField where
  h : Nat
  w : Nat
  fieldx : Nat → Nat → ℝ
  fieldy : Nat → Nat → ℝ

/-- Translation of `VectorField.from_gradient`: both Scharr responses
divided by the fixed scale constant 15.36. -/
noncomputable def VectorField.from_gradient (h w : Nat) (gray : Nat → Nat → ℝ) :
    VectorField :=
  ⟨h, w,
   fun i j => conv2d 1 scharrKx (extend101 h w gray) i j / 15.36,
   fun i j => conv2d 1 scharrKy (extend101 h w gray) i j / 15.36⟩

/-- One `cv2.GaussianBlur(·, (2*radius+1, 2*radius+1), 0)` pass over a
grid.  The Gaussian kernel weights are computed inside cv2 and are taken
as a parameter `gker`. -/
noncomputable def blurPass (gker : Nat → Nat → ℝ) (radius h w : Nat)
    (f : Nat → Nat → ℝ) : Nat → Nat → ℝ :=
  fun i j => conv2d radius gker (extend101 h w f) i j

/-- Translation of `VectorField.smooth`: `iterations` Gaussian passes over
both component grids (the module always calls it with the default
`iterations = 1`). -/
noncomputable def VectorField.smooth (vf : VectorField) (gker : Nat → Nat → ℝ)
    (radius : Nat) (iterations : Nat := 1) : VectorField :=
  match iterations with
  | 0 => vf
  | n + 1 =>
      VectorField.smooth
        ⟨vf.h, vf.w,
         blurPass gker radius vf.h vf.w vf.fieldx,
         blurPass gker radius vf.h vf.w vf.fieldy⟩ gker radius n

/-- Two-argument arctangent with the value conventions of C `atan2`
(`math.atan2` in Python); in particular `atan2 0 0 = 0`. -/
noncomputable def atan2 (y x : ℝ) : ℝ :=
  if 0 < x then Real.arctan (y / x)
  else if x < 0 then
    (if 0 ≤ y then Real.arctan (y / x) + Real.pi else Real.arctan (y / x) - Real.pi)
  else
    (if 0 < y then Real.pi / 2 else if y < 0 then -(Real.pi / 2) else 0)

/-- Translation of `VectorField.direction`. -/
noncomputable def VectorField.direction (vf : VectorField) (i j : Nat) : ℝ :=
  atan2 (vf.fieldy i j) (vf.fieldx i j)

/-- Translation of `VectorField.magnitude` (`math.hypot`). -/
noncomputable def VectorField.magnitude (vf : VectorField) (i j : Nat) : ℝ :=
  Real.sqrt ((vf.fieldx i j) ^ 2 + (vf.fieldy i j) ^ 2)

/-! ### compute_color_probabilities (ronchetti.py lines 174-189)

`scipy.spatial.distance.cdist` with the default metric is the Euclidean
distance, computed row by row; every other operation in the function is
row-wise as well, so the batch function is the per-anchor map of a
per-anchor row computation.  The row computation is embedded over the
exact reals, with the single NaN source — `distances /= summ[:, None]`
when a row of `summ` is zero — made explicit: `none` models the all-NaN
row that numpy produces there (0/0, no exception and no guard). -/

/-- Euclidean distance between two colors (`scipy.spatial.distance.cdist`
entry). -/
noncomputable def cdist (a b : Color) : ℝ :=
  Real.sqrt (((a.1 : ℝ) - b.1) ^ 2 + ((a.2.1 : ℝ) - b.2.1) ^ 2 + ((a.2.2 : ℝ) - b.2.2) ^ 2)

/-- Distance row of one anchor against the palette. -/
noncomputable def distRow (p : Color) (colors : List Color) : List ℝ :=
  colors.map (fun c => cdist p c)

/-- Row maximum (`np.amax(distances, axis=1)`); distances are nonnegative,
so folding `max` from 0 agrees with the numpy maximum of a nonempty row. -/
noncomputable def rowMax (p : Color) (colors : List Color) : ℝ :=
  (distRow p colors).foldl max 0

/-- Unnormalized affinities `maxima[:, None] - distances` for one anchor. -/
noncomputable def affinities (p : Color) (colors : List Color) : List ℝ :=
  (distRow p colors).map (fun d => rowMax p colors - d)

/-- Row normalizer `summ = np.sum(distances, 1)`, the quantity the code
divides by without any guard. -/
noncomputable def affinitySum (p : Color) (colors : List Color) : ℝ :=
  (affinities p colors).sum

/-- Running cumulative sums starting from `acc` (`np.cumsum` on one row). -/
def cumsumFrom (acc : ℝ) : List ℝ → List ℝ
  | [] => []
  | x :: xs => (acc + x) :: cumsumFrom (acc + x) xs

/-- Normalized affinities `distances /= summ[:, None]` of one anchor. -/
noncomputable def normedAffinities (p : Color) (colors : List Color) : List ℝ :=
  (affinities p colors).map (fun a => a / affinitySum p colors)

/-- Exponential sharpening `np.exp(k * len(palette) * distances)`. -/
noncomputable def expedAffinities (p : Color) (colors : List Color) (k : ℝ) : List ℝ :=
  (normedAffinities p colors).map (fun a => Real.exp (k * colors.length * a))

/-- Renormalized probability row (second `distances /= summ[:, None]`). -/
noncomputable def probRow (p : Color) (colors : List Color) (k : ℝ) : List ℝ :=
  (expedAffinities p colors k).map (fun a => a / (expedAffinities p colors k).sum)

/-- Row of `compute_color_probabilities` for one anchor: normalize the
affinities, exponentiate with the sharpening coefficient, renormalize, and
take cumulative sums.  A zero `affinitySum` makes the first division 0/0
in numpy; the resulting all-NaN row is `none`. -/
noncomputable def ccpRow (p : Color) (colors : List Color) (k : ℝ) :
    Option (List ℝ) :=
  if affinitySum p colors = 0 then none
  else some (cumsumFrom 0 (probRow p colors k))

/-- Translation of `compute_color_probabilities` (per-anchor rows of the
batch result; `k` is the `color_randomness` coefficient). -/
noncomputable def compute_color_probabilities (pixels : List Color)
    (colors : List Color) (k : ℝ) : List (Option (List ℝ)) :=
  pixels.map (fun p => ccpRow p colors k)

/-! ### color_select (ronchetti.py lines 191-195) -/

/-- Loop of Python's `bisect.bisect_left` (`while lo < hi` with midpoint
probing), written with a fuel argument that bounds the number of loop
iterations; the interval shrinks strictly every iteration, so any fuel of
at least `hi - lo` reproduces the loop exactly. -/
def bisectLoop {α : Type} [LinearOrder α] (a : List α) (x : α) :
    Nat → Nat → Nat → Nat
  | 0, lo, _ => lo
  | fuel + 1, lo, hi =>
      if lo < hi then
        let mid := (lo + hi) / 2
        if a.getD mid x < x then bisectLoop a x fuel (mid + 1) hi
        else bisectLoop a x fuel lo mid
      else lo

/-- Translation of `bisect.bisect_left(a, x)` over the whole list. -/
def bisect_left {α : Type} [LinearOrder α] (a : List α) (x : α) : Nat :=
  bisectLoop a x (a.length + 1) 0 a.length

/-- Translation of `color_select`: the uniform draw `r` is passed in
explicitly; the palette entry at the insertion point is returned, the last
entry when the insertion point runs off the end. -/
def color_select {α β : Type} [LinearOrder α] [Inhabited β]
    (probabilities : List α) (palette : List β) (r : α) : β :=
  let i := bisect_left probabilities r
  if i < palette.length then palette.getD i default else palette.getLastD default

/-! ### randomized_grid (ronchetti.py lines 197-211)

The random source is the seeded global `random` module; its draws are
abstracted as a state machine threaded through the computation in exactly the
order the Python code consumes them. -/

/-- Interface of the Python `random` module as used by the algorithm:
`randint lo hi` draws an integer, `uniform` draws from [0, 1), `shuffle`
permutes a list, each threading the generator state. -/
structure RNGOps (σ : Type) where
  randint : Int → Int → σ → Int × σ
  uniform : σ → ℝ × σ
  shuffle : List (Nat × Nat) → σ → List (Nat × Nat) × σ

/-- Inner `for j in range(0, w, scale)` loop at row offset `i`: one jittered
anchor per column offset, coordinates wrapped modulo the image size. -/
def gridRow {σ : Type} (R : RNGOps σ) (h w : Nat) (r : Nat) (i : Nat) :
    List Nat → σ → List (Nat × Nat) × σ
  | [], s => ([], s)
  | j :: js, s =>
      let a1 := R.randint (-(r : Int)) r s
      let a2 := R.randint (-(r : Int)) r a1.2
      let y := (((i : Int) + a1.1) % (h : Int)).toNat
      let x := (((j : Int) + a2.1) % (w : Int)).toNat
      let rest := gridRow R h w r i js a2.2
      ((y, x) :: rest.1, rest.2)

/-- Outer `for i in range(0, h, scale)` loop, concatenating the rows in
iteration order. -/
def gridRows {σ : Type} (R : RNGOps σ) (h w : Nat) (r : Nat) (cols : List Nat) :
    List Nat → σ → List (Nat × Nat) × σ
  | [], s => ([], s)
  | i :: is, s =>
      let row := gridRow R h w r i cols s
      let rest := gridRows R h w r cols is row.2
      (row.1 ++ rest.1, rest.2)

/-- Translation of `randomized_grid`: the `assert scale > 0` failure is an
`AssertionError`, modelled as the error case; otherwise the jittered grid
is built and shuffled. -/
def randomized_grid {σ : Type} (R : RNGOps σ) (h w : Nat) (scale : Int) (s : σ) :
    Except String (List (Nat × Nat) × σ) :=
  if scale ≤ 0 then .error "assert scale > 0"
  else
    let sc := scale.toNat
    let r := sc / 2
    let g := gridRows R h w r (pyRange w sc) (pyRange h sc) s
    .ok (R.shuffle g.1 g.2)

/-! ### create_pointillism (ronchetti.py lines 213-306) -/

/-- Python exception value as raised by the module: the exception class
name and its message.  `create_pointillism` raises the base class
`Exception` for every failure (line 306). -/
structure PyException where
  typeName : String
  msg : String
deriving DecidableEq

/-- Recognized entries of the `custom_params` map with the defaults of
lines 229-234 (a missing key takes the default). -/
structure Params where
  palette_size : Int := 20
  stroke_scale : Int := 0
  gradient_smoothing : Int := 0
  grid_scale : Int := 3
  color_randomness : Int := 9
  use_median_blur : Bool := true
deriving DecidableEq

/-- Result of `PIL.Image.open` on an in-memory buffer: the mode string
("RGB", "L", "RGBA", "P", ...) and the pixel grid. -/
structure Decoded where
  mode : String
  img : Img

/-- External library hooks used by the pipeline, bundled as parameters of
the embedding: PIL decoding and mode conversion, cv2 resampling, grayscale
conversion, Gaussian kernel weights (indexed by kernel size), median
filtering, the anti-aliased ellipse rasterizer, and the two HSV
color-space conversions.  Every hook that models an in-place cv2 write
transforms only the pixel function, since mutation cannot change a buffer
shape. -/
structure Externals where
  decode : List Nat → Except String Decoded
  convertRGBPix : Nat → Nat → (Nat → Nat → Color) → (Nat → Nat → Color)
  resizePix : Nat → Nat → Img → (Nat → Nat → Color)
  toGray : Color → ℝ
  gker : Nat → Nat → Nat → ℝ
  medianPix : Nat → Nat → Nat → (Nat → Nat → Color) → (Nat → Nat → Color)
  ellipsePix : Nat × Nat → Int × Int → ℝ → Color → Nat → Nat →
    (Nat → Nat → Color) → (Nat → Nat → Color)
  bgr2hsv : Color → Color
  hsv2bgr : Color → Color

/-- Channel swap of `cv2.cvtColor(·, COLOR_RGB2BGR)` and its inverse. -/
def swapRB (c : Color) : Color := (c.2.2, c.2.1, c.1)

/-- Decoded image converted to RGB when its mode is not RGB
(lines 237-239); PIL.Image.convert preserves the pixel grid shape. -/
def toPil (E : Externals) (dec : Decoded) : Img :=
  if dec.mode ≠ "RGB" then
    ⟨dec.img.h, dec.img.w, E.convertRGBPix dec.img.h dec.img.w dec.img.pix⟩
  else dec.img

/-- cv2 BGR view of the PIL image (line 242). -/
def toBgr (pil : Img) : Img := ⟨pil.h, pil.w, fun i j => swapRB (pil.pix i j)⟩

/-- Python `round(m / d)` for naturals (banker's rounding, half to even),
used for the auto gradient-smoothing radius `int(round(max(h, w) / 50))`. -/
def pyRoundDiv (m d : Nat) : Nat :=
  let q := m / d
  let r := m % d
  if d < 2 * r ∨ (2 * r = d ∧ q % 2 = 1) then q + 1 else q

/-- Per-anchor stroke pass (lines 276-299).  The splitting into batches of
10000 anchors only bounds the memory of the pairwise distance computation:
every distance/probability row depends on its own anchor alone and the RNG
draws happen in anchor order, so the per-anchor formulation is observably
identical to the batched one.  A `none` probability row (the all-NaN row)
makes `bisect_left` return index 0, because no NaN comparison succeeds, so
the first palette entry is selected there, as in numpy.  The stroke length
rounding models Python `int(round(·))` with Mathlib `round` (they differ
only at exact half-integers).  -/
noncomputable def strokeLoop {σ : Type} (E : Externals) (R : RNGOps σ)
    (img : Img) (palette : ColorPalette) (grad : VectorField)
    (stroke_scale : Int) (k : ℝ) :
    List (Nat × Nat) → (Nat → Nat → Color) → σ → (Nat → Nat → Color) × σ
  | [], pix, s => (pix, s)
  | (y, x) :: rest, pix, s =>
      let row := ccpRow (img.pix y x) palette.colors k
      let u := R.uniform s
      let color :=
        match row with
        | none => palette.colors.getD 0 default
        | some ps => color_select ps palette.colors u.1
      let angle := VectorField.direction grad y x * (180 / Real.pi) + 90
      let len := round ((stroke_scale : ℝ) +
        (stroke_scale : ℝ) * Real.sqrt (VectorField.magnitude grad y x))
      let pix2 := E.ellipsePix (x, y) (len, stroke_scale) angle color img.h img.w pix
      strokeLoop E R img palette grad stroke_scale k rest pix2 u.2

/-- Translation of `create_pointillism`.  The random source is the seeded
`random` module state `s0` threaded in consumption order (the clustering
uses its own fixed seed `random_state=42` and is deterministic).  The outer
`try/except` (lines 227, 305-306) turns any stage failure into one generic
`Exception` whose message prefixes the cause with
"Ronchetti algorithm failed: "; no other error kind exists in the module. -/
noncomputable def create_pointillism {σ : Type} (E : Externals) (R : RNGOps σ) (s0 : σ)
    (image_data : List Nat) (params : Params) : Except PyException Decoded :=
  let inner : Except String Decoded :=
    match E.decode image_data with
    | .error e => .error e
    | .ok dec =>
        let img : Img := toBgr (toPil E dec)
        let stroke_scale : Int :=
          if params.stroke_scale = 0 then ((max img.h img.w + 999) / 1000 : Nat)
          else params.stroke_scale
        let gradient_smoothing : Int :=
          if params.gradient_smoothing = 0 then (pyRoundDiv (max img.h img.w) 50 : Nat)
          else params.gradient_smoothing
        let gray : Nat → Nat → ℝ := fun i j => E.toGray (img.pix i j)
        match ColorPalette.from_image E.resizePix img params.palette_size with
        | .error e => .error e
        | .ok pal0 =>
            let palette := pal0.extend E.bgr2hsv E.hsv2bgr defaultExtensions
            let grad := (VectorField.from_gradient img.h img.w gray).smooth
              (E.gker (2 * gradient_smoothing.toNat + 1)) gradient_smoothing.toNat
            let result0 : Nat → Nat → Color :=
              if params.use_median_blur then E.medianPix 11 img.h img.w img.pix
              else img.pix
            match randomized_grid R img.h img.w params.grid_scale s0 with
            | .error e => .error e
            | .ok (grid, s1) =>
                let res := strokeLoop E R img palette grad stroke_scale
                  (params.color_randomness : ℝ) grid result0 s1
                .ok ⟨"RGB", ⟨img.h, img.w, fun i j => swapRB (res.1 i j)⟩⟩
  match inner with
  | .error e => .error ⟨"Exception", "Ronchetti algorithm failed: " ++ e⟩
  | .ok v => .ok v

/-- Concrete instantiation of the external hooks for evaluating the
pipeline at concrete inputs (the theorems that use it only exercise
control flow that does not depend on the hook values).  Its decoder
rejects every buffer, as PIL does on empty or corrupt bytes. -/
noncomputable def extFail : Externals :=
  { decode := fun _ => .error "cannot identify image file"
    convertRGBPix := fun _ _ p => p
    resizePix := fun _ _ im => im.pix
    toGray := fun _ => 0
    gker := fun _ _ _ => 0
    medianPix := fun _ _ _ p => p
    ellipsePix := fun _ _ _ _ _ _ p => p
    bgr2hsv := id
    hsv2bgr := id }

/-- External hooks whose decoder yields a 1 × 1 grayscale ("L" mode)
image, as PIL produces for a valid single-pixel grayscale file. -/
noncomputable def extTiny : Externals :=
  { extFail with decode := fun _ => .ok ⟨"L", ⟨1, 1, fun _ _ => (7, 7, 7)⟩⟩ }

/-- Degenerate but valid random source: every `randint` returns its lower
bound, `uniform` returns 0, and the shuffle is the identity permutation of
its input. -/
noncomputable def rngId : RNGOps Unit :=
  { randint := fun lo _ s => (lo, s)
    uniform := fun s => (0, s)
    shuffle := fun l s => (l, s) }

/-! ## Claim C6 — palette-extension transform arithmetic -/

/-- C6 counterexample: the claimed semantics fails on the code.  At
`hue = -15` the code shifts by `255 - 15 = 240`, not by
`(256 - 15) mod 256 = 241` as true modulo-256 wraparound would; and a
saturation sum `250 + 50 = 300` wraps in uint8 to `44` before `np.clip`
runs, instead of clamping to `255`.  Concretely
`regulateHSV (0, 250, 0) (-15) 50 0 = (240, 44, 0)` while the claim
predicts `(241, 255, 0)`. -/
theorem regulateHSV_ne_claimed :
    regulateHSV (0, 250, 0) (-15) 50 0 = (240, 44, 0) ∧
    regulateHSV_claimed (0, 250, 0) (-15) 50 0 = (241, 255, 0) ∧
    regulateHSV (0, 250, 0) (-15) 50 0 ≠ regulateHSV_claimed (0, 250, 0) (-15) 50 0 := by
  refine ⟨by decide, by decide, by decide⟩

/-- C6 (amended): for the offset ranges the module uses
(`-255 ≤ hue ≤ 255`, byte-sized non-negative saturation and luminosity
offsets), the transform maps a negative hue offset `hue` to a shift by
`255 + hue` (one less than true modulo wraparound) followed by a uint8
wrapping add, and the saturation and luminosity sums also wrap modulo 256,
the subsequent clamp to [0, 255] being a no-op. -/
theorem regulateHSV_eval (c : Color) (hue : Int) (sat lum : Nat)
    (hhue1 : -255 ≤ hue) (hhue2 : hue ≤ 255) (hsat : sat ≤ 255) (hlum : lum ≤ 255) :
    regulateHSV c hue sat lum =
      ((c.1 + (if hue < 0 then 255 + hue else hue).toNat) % 256,
       (c.2.1 + sat) % 256,
       (c.2.2 + lum) % 256) := by
  have h1 : (c.2.1 + sat) % 256 < 256 := Nat.mod_lt _ (by norm_num)
  have h2 : (c.2.2 + lum) % 256 < 256 := Nat.mod_lt _ (by norm_num)
  unfold regulateHSV
  simp only [Prod.mk.injEq]
  exact ⟨trivial, by omega, by omega⟩

/-- Witness for `regulateHSV_eval` at the concrete input of the
counterexample. -/
theorem regulateHSV_eval_witness :
    (-255 : Int) ≤ -15 ∧ (-15 : Int) ≤ 255 ∧ (50 : Nat) ≤ 255 ∧ (0 : Nat) ≤ 255 ∧
    regulateHSV (0, 250, 0) (-15) 50 0 =
      ((0 + (if (-15 : Int) < 0 then 255 + (-15) else (-15)).toNat) % 256,
       (250 + 50) % 256,
       (0 + 0) % 256) :=
  ⟨by decide, by decide, by decide, by decide,
   regulateHSV_eval (0, 250, 0) (-15) 50 0 (by decide) (by decide) (by decide) (by decide)⟩

/-! ## Claims C1 and C2 — the cumulative color distribution -/

theorem cdist_self (c : Color) : cdist c c = 0 := by
  unfold cdist
  simp [Real.sqrt_zero]

theorem cdist_nonneg (a b : Color) : 0 ≤ cdist a b := Real.sqrt_nonneg _

theorem le_foldl_max (l : List ℝ) (a : ℝ) : a ≤ l.foldl max a := by
  induction l generalizing a with
  | nil => simp
  | cons y ys ih => exact le_trans (le_max_left a y) (ih (max a y))

theorem mem_le_foldl_max (l : List ℝ) (a : ℝ) : ∀ x ∈ l, x ≤ l.foldl max a := by
  induction l generalizing a with
  | nil => simp
  | cons y ys ih =>
      intro x hx
      rcases List.mem_cons.mp hx with rfl | hx
      · exact le_trans (le_max_right a x) (le_foldl_max ys (max a x))
      · exact ih (max a y) x hx

theorem affinities_nonneg (p : Color) (colors : List Color) :
    ∀ x ∈ affinities p colors, 0 ≤ x := by
  intro x hx
  unfold affinities at hx
  obtain ⟨d, hd, rfl⟩ := List.mem_map.mp hx
  have hle : d ≤ rowMax p colors := mem_le_foldl_max (distRow p colors) 0 d hd
  linarith

theorem affinitySum_pos (p : Color) (colors : List Color)
    (hvar : ∃ c1 ∈ colors, ∃ c2 ∈ colors, cdist p c1 ≠ cdist p c2) :
    0 < affinitySum p colors := by
  obtain ⟨c1, h1, c2, h2, hne⟩ := hvar
  have key : ∀ a b : Color, a ∈ colors → b ∈ colors → cdist p a < cdist p b →
      0 < affinitySum p colors := by
    intro a b ha hb hab
    have hbm : cdist p b ≤ rowMax p colors := by
      unfold rowMax
      exact mem_le_foldl_max (distRow p colors) 0 _
        (by unfold distRow; exact List.mem_map_of_mem _ hb)
    have hmem : rowMax p colors - cdist p a ∈ affinities p colors := by
      unfold affinities
      exact List.mem_map_of_mem _ (by unfold distRow; exact List.mem_map_of_mem _ ha)
    have hle := List.single_le_sum (affinities_nonneg p colors) _ hmem
    unfold affinitySum
    linarith
  rcases lt_or_gt_of_ne hne with h | h
  · exact key c1 c2 h1 h2 h
  · exact key c2 c1 h2 h1 h

theorem affinitySum_single : affinitySum (0, 0, 0) [(0, 0, 0)] = 0 := by
  unfold affinitySum affinities rowMax distRow
  simp [cdist_self]

/-- C2: the module performs the row normalization with no guard at all.
For the failing input of a single-color palette (any anchor is equidistant
from all its entries), the normalizer `summ` is exactly 0, the code
executes `distances /= summ[:, None]` dividing by that zero sum, and the
resulting probability row is the all-NaN row (`none` in the model) rather
than any guarded fallback — refuting the claim that a division by a zero
sum can never occur. -/
theorem ccpRow_zero_sum_division :
    affinitySum (0, 0, 0) [(0, 0, 0)] = 0 ∧
    ccpRow (0, 0, 0) [(0, 0, 0)] 9 = none ∧
    compute_color_probabilities [(0, 0, 0)] [(0, 0, 0)] 9 = [none] := by
  refine ⟨affinitySum_single, ?_, ?_⟩
  · unfold ccpRow
    rw [if_pos affinitySum_single]
  · unfold compute_color_probabilities
    simp only [List.map_cons, List.map_nil]
    rw [show ccpRow (0, 0, 0) [(0, 0, 0)] 9 = none by
      unfold ccpRow; rw [if_pos affinitySum_single]]

/-- C1 counterexample: the claim quantifies over every palette with at
least one entry, but for the one-entry palette `[(0,0,0)]` (or any anchor
equidistant from all palette colors) the returned row is the all-NaN row,
which is not a monotone [0, 1] distribution ending at 1. -/
theorem compute_color_probabilities_single_nan :
    compute_color_probabilities [((0, 0, 0) : Color)] [(0, 0, 0)] 9 = [none] ∧
    ¬ ∃ l : List ℝ, ccpRow (0, 0, 0) [(0, 0, 0)] 9 = some l ∧ l.getLastD 0 = 1 := by
  have hnone : ccpRow ((0, 0, 0) : Color) [(0, 0, 0)] 9 = none := by
    unfold ccpRow; rw [if_pos affinitySum_single]
  constructor
  · unfold compute_color_probabilities
    rw [List.map_cons, List.map_nil, hnone]
  · rintro ⟨l, hl, -⟩
    rw [hnone] at hl
    cases hl

theorem list_sum_map_div (l : List ℝ) (c : ℝ) :
    (l.map (fun x => x / c)).sum = l.sum / c := by
  simp only [div_eq_mul_inv]
  simpa using List.sum_map_mul_right l id c⁻¹

theorem cumsumFrom_length (acc : ℝ) (l : List ℝ) :
    (cumsumFrom acc l).length = l.length := by
  induction l generalizing acc with
  | nil => rfl
  | cons x xs ih => simp [cumsumFrom, ih]

theorem cumsumFrom_getLastD (acc d : ℝ) (l : List ℝ) (h : l ≠ []) :
    (cumsumFrom acc l).getLastD d = acc + l.sum := by
  induction l generalizing acc d with
  | nil => exact absurd rfl h
  | cons x xs ih =>
      cases xs with
      | nil => simp [cumsumFrom]
      | cons y ys =>
          rw [show cumsumFrom acc (x :: y :: ys) =
                (acc + x) :: cumsumFrom (acc + x) (y :: ys) from rfl,
              List.getLastD_cons, ih (acc + x) (acc + x) (by simp)]
          simp only [List.sum_cons]
          ring

theorem cumsumFrom_bounds (acc : ℝ) (l : List ℝ) (hnn : ∀ x ∈ l, 0 ≤ x) :
    ∀ v ∈ cumsumFrom acc l, acc ≤ v ∧ v ≤ acc + l.sum := by
  induction l generalizing acc with
  | nil => simp [cumsumFrom]
  | cons x xs ih =>
      have hx : 0 ≤ x := hnn x (by simp)
      have hxs : ∀ y ∈ xs, 0 ≤ y := fun y hy => hnn y (by simp [hy])
      have hsum : 0 ≤ xs.sum := List.sum_nonneg hxs
      intro v hv
      rcases List.mem_cons.mp hv with rfl | hv
      · exact ⟨by linarith, by simp only [List.sum_cons]; linarith⟩
      · obtain ⟨h1, h2⟩ := ih (acc + x) hxs v hv
        refine ⟨by linarith, ?_⟩
        simp only [List.sum_cons]
        linarith

theorem cumsumFrom_chain (acc : ℝ) (l : List ℝ) (hnn : ∀ x ∈ l, 0 ≤ x) :
    (cumsumFrom acc l).Chain' (· ≤ ·) := by
  induction l generalizing acc with
  | nil => simp [cumsumFrom]
  | cons x xs ih =>
      have hxs : ∀ y ∈ xs, 0 ≤ y := fun y hy => hnn y (by simp [hy])
      rw [show cumsumFrom acc (x :: xs) = (acc + x) :: cumsumFrom (acc + x) xs from rfl,
          List.chain'_cons']
      refine ⟨?_, ih (acc + x) hxs⟩
      intro b hb
      cases xs with
      | nil => simp [cumsumFrom] at hb
      | cons y ys =>
          rw [show cumsumFrom (acc + x) (y :: ys) =
                (acc + x + y) :: cumsumFrom (acc + x + y) ys from rfl] at hb
          simp only [List.head?_cons, Option.mem_some_iff] at hb
          subst hb
          have : 0 ≤ y := hnn y (by simp)
          linarith

theorem expedAffinities_pos (p : Color) (colors : List Color) (k : ℝ) :
    ∀ x ∈ expedAffinities p colors k, 0 < x := by
  intro x hx
  obtain ⟨a, -, rfl⟩ := List.mem_map.mp hx
  exact Real.exp_pos _

theorem expedAffinities_length (p : Color) (colors : List Color) (k : ℝ) :
    (expedAffinities p colors k).length = colors.length := by
  unfold expedAffinities normedAffinities affinities distRow
  simp

theorem expedAffinities_sum_pos (p : Color) (colors : List Color) (k : ℝ)
    (hcne : colors ≠ []) : 0 < (expedAffinities p colors k).sum := by
  refine List.sum_pos _ (expedAffinities_pos p colors k) ?_
  rw [← List.length_pos_iff_ne_nil, expedAffinities_length]
  exact List.length_pos.mpr hcne

theorem probRow_nonneg (p : Color) (colors : List Color) (k : ℝ)
    (hcne : colors ≠ []) : ∀ x ∈ probRow p colors k, 0 ≤ x := by
  intro x hx
  obtain ⟨e, he, rfl⟩ := List.mem_map.mp hx
  exact div_nonneg (le_of_lt (expedAffinities_pos p colors k e he))
    (le_of_lt (expedAffinities_sum_pos p colors k hcne))

theorem probRow_length (p : Color) (colors : List Color) (k : ℝ) :
    (probRow p colors k).length = colors.length := by
  unfold probRow
  rw [List.length_map, expedAffinities_length]

theorem probRow_sum (p : Color) (colors : List Color) (k : ℝ)
    (hcne : colors ≠ []) : (probRow p colors k).sum = 1 := by
  unfold probRow
  rw [list_sum_map_div, div_self (ne_of_gt (expedAffinities_sum_pos p colors k hcne))]

theorem probRow_ne_nil (p : Color) (colors : List Color) (k : ℝ)
    (hcne : colors ≠ []) : probRow p colors k ≠ [] := by
  rw [← List.length_pos_iff_ne_nil, probRow_length]
  exact List.length_pos.mpr hcne

/-- C1 (amended): for every anchor color and every palette from which the
anchor does not have one and the same distance to all entries (the
counterexample shows the claim fails otherwise, e.g. for a single-entry
palette), the cumulative row returned by `compute_color_probabilities`
exists, has palette length, is monotonically non-decreasing, lies in
[0, 1], and its final value is exactly 1 (in the exact-real model of the
float arithmetic, hence within any floating-point tolerance). -/
theorem compute_color_probabilities_cdf (p : Color) (colors : List Color) (k : ℝ)
    (hvar : ∃ c1 ∈ colors, ∃ c2 ∈ colors, cdist p c1 ≠ cdist p c2) :
    ∃ l : List ℝ, compute_color_probabilities [p] colors k = [some l] ∧
      l.length = colors.length ∧ l.Sorted (· ≤ ·) ∧
      (∀ v ∈ l, 0 ≤ v ∧ v ≤ 1) ∧ l.getLastD 0 = 1 := by
  have hS := affinitySum_pos p colors hvar
  have hcne : colors ≠ [] := by
    obtain ⟨c1, h1, -⟩ := hvar
    exact List.ne_nil_of_mem h1
  have hpnn := probRow_nonneg p colors k hcne
  refine ⟨cumsumFrom 0 (probRow p colors k), ?_, ?_, ?_, ?_, ?_⟩
  · unfold compute_color_probabilities
    rw [List.map_cons, List.map_nil]
    unfold ccpRow
    rw [if_neg (ne_of_gt hS)]
  · rw [cumsumFrom_length, probRow_length]
  · exact List.chain'_iff_pairwise.mp (cumsumFrom_chain 0 _ hpnn)
  · intro v hv
    obtain ⟨h1, h2⟩ := cumsumFrom_bounds 0 _ hpnn v hv
    rw [probRow_sum p colors k hcne] at h2
    constructor <;> linarith
  · rw [cumsumFrom_getLastD 0 0 _ (probRow_ne_nil p colors k hcne),
        probRow_sum p colors k hcne]
    ring

theorem cdist_015 : cdist (0, 0, 0) (0, 3, 4) = 5 := by
  unfold cdist
  norm_num
  rw [show (25 : ℝ) = 5 ^ 2 by norm_num]
  exact Real.sqrt_sq (by norm_num)

/-- Witness for `compute_color_probabilities_cdf` at the anchor `(0,0,0)`
and the two-entry palette `[(0,0,0), (0,3,4)]` (distances 0 and 5). -/
theorem compute_color_probabilities_cdf_witness :
    (∃ c1 ∈ [((0, 0, 0) : Color), (0, 3, 4)], ∃ c2 ∈ [((0, 0, 0) : Color), (0, 3, 4)],
        cdist (0, 0, 0) c1 ≠ cdist (0, 0, 0) c2) ∧
    ∃ l : List ℝ,
      compute_color_probabilities [(0, 0, 0)] [(0, 0, 0), (0, 3, 4)] 9 = [some l] ∧
      l.length = ([((0, 0, 0) : Color), (0, 3, 4)]).length ∧ l.Sorted (· ≤ ·) ∧
      (∀ v ∈ l, 0 ≤ v ∧ v ≤ 1) ∧ l.getLastD 0 = 1 := by
  have hvar : ∃ c1 ∈ [((0, 0, 0) : Color), (0, 3, 4)],
      ∃ c2 ∈ [((0, 0, 0) : Color), (0, 3, 4)], cdist (0, 0, 0) c1 ≠ cdist (0, 0, 0) c2 := by
    refine ⟨(0, 0, 0), by simp, (0, 3, 4), by simp, ?_⟩
    rw [cdist_self, cdist_015]
    norm_num
  exact ⟨hvar, compute_color_probabilities_cdf (0, 0, 0) [(0, 0, 0), (0, 3, 4)] 9 hvar⟩

/-! ## Claim C4 — the randomized anchor grid -/

theorem emod_toNat_lt (n : Nat) (i : Int) (hn : 1 ≤ n) : (i % (n : Int)).toNat < n := by
  have hn0 : (n : Int) ≠ 0 := by exact_mod_cast Nat.one_le_iff_ne_zero.mp hn
  have h1 : 0 ≤ i % (n : Int) := Int.emod_nonneg i hn0
  have h2 : i % (n : Int) < n := Int.emod_lt_of_pos i (by exact_mod_cast hn)
  omega

theorem pyRange_length (stop step : Nat) :
    (pyRange stop step).length = (stop + step - 1) / step := by
  unfold pyRange
  simp

theorem gridRow_length {σ : Type} (R : RNGOps σ) (h w r i : Nat)
    (cols : List Nat) (s : σ) :
    (gridRow R h w r i cols s).1.length = cols.length := by
  induction cols generalizing s with
  | nil => rfl
  | cons j js ih => simp [gridRow, ih]

theorem gridRow_mem {σ : Type} (R : RNGOps σ) (h w r i : Nat)
    (hh : 1 ≤ h) (hw : 1 ≤ w) (cols : List Nat) (s : σ) :
    ∀ a ∈ (gridRow R h w r i cols s).1, a.1 < h ∧ a.2 < w := by
  induction cols generalizing s with
  | nil => intro a ha; simp [gridRow] at ha
  | cons j js ih =>
      intro a ha
      simp only [gridRow] at ha
      rcases List.mem_cons.mp ha with rfl | ha
      · exact ⟨emod_toNat_lt h _ hh, emod_toNat_lt w _ hw⟩
      · exact ih _ a ha

theorem gridRows_length {σ : Type} (R : RNGOps σ) (h w r : Nat)
    (cols rows : List Nat) (s : σ) :
    (gridRows R h w r cols rows s).1.length = rows.length * cols.length := by
  induction rows generalizing s with
  | nil => simp [gridRows]
  | cons i is ih =>
      simp [gridRows, gridRow_length, ih]
      ring

theorem gridRows_mem {σ : Type} (R : RNGOps σ) (h w r : Nat)
    (hh : 1 ≤ h) (hw : 1 ≤ w) (cols rows : List Nat) (s : σ) :
    ∀ a ∈ (gridRows R h w r cols rows s).1, a.1 < h ∧ a.2 < w := by
  induction rows generalizing s with
  | nil => intro a ha; simp [gridRows] at ha
  | cons i is ih =>
      intro a ha
      simp only [gridRows] at ha
      rcases List.mem_append.mp ha with ha | ha
      · exact gridRow_mem R h w r i hh hw cols s a ha
      · exact ih _ a ha

/-- C4: for every height H ≥ 1, width W ≥ 1 and grid scale S ≥ 1, and any
behaviour of the integer jitter draws, `randomized_grid` succeeds, every
returned anchor lies in [0,H) × [0,W) (the jittered coordinates wrap
toroidally modulo H and W), and the number of anchors is exactly
ceil(H/S) × ceil(W/S); the concluding shuffle is assumed to permute its
input, which is the contract of `random.shuffle`. -/
theorem randomized_grid_spec {σ : Type} (R : RNGOps σ) (h w : Nat) (scale : Int)
    (s : σ) (hh : 1 ≤ h) (hw : 1 ≤ w) (hs : 1 ≤ scale)
    (hshuffle : ∀ l s1, ((R.shuffle l s1).1).Perm l) :
    ∃ g s2, randomized_grid R h w scale s = .ok (g, s2) ∧
      g.length = ((h + scale.toNat - 1) / scale.toNat) *
        ((w + scale.toNat - 1) / scale.toNat) ∧
      ∀ a ∈ g, a.1 < h ∧ a.2 < w := by
  unfold randomized_grid
  rw [if_neg (by omega)]
  refine ⟨_, _, rfl, ?_, ?_⟩
  · rw [(hshuffle _ _).length_eq, gridRows_length, pyRange_length, pyRange_length]
  · intro a ha
    exact gridRows_mem R h w _ hh hw _ _ s a ((hshuffle _ _).mem_iff.mp ha)

/-- Witness for `randomized_grid_spec` on a 2 × 3 canvas with grid scale 2
and the identity-shuffle RNG. -/
theorem randomized_grid_spec_witness :
    (1 ≤ 2 ∧ 1 ≤ 3 ∧ (1 : Int) ≤ 2) ∧
    ∃ g s2, randomized_grid rngId 2 3 2 () = .ok (g, s2) ∧
      g.length = ((2 + (2 : Int).toNat - 1) / (2 : Int).toNat) *
        ((3 + (2 : Int).toNat - 1) / (2 : Int).toNat) ∧
      ∀ a ∈ g, a.1 < 2 ∧ a.2 < 3 :=
  ⟨⟨by decide, by decide, by decide⟩,
   randomized_grid_spec rngId 2 3 2 () (by decide) (by decide) (by decide)
     (fun l s1 => List.Perm.refl l)⟩

/-! ## Claim C7 — color_select and bisect_left -/

theorem sorted_getD_le {α : Type} [LinearOrder α] {a : List α}
    (hs : a.Sorted (· ≤ ·)) {i j : Nat} (hij : i ≤ j) (hj : j < a.length) (d : α) :
    a.getD i d ≤ a.getD j d := by
  have hi : i < a.length := lt_of_le_of_lt hij hj
  rw [List.getD_eq_getElem a d hi, List.getD_eq_getElem a d hj]
  rcases eq_or_lt_of_le hij with rfl | hlt
  · exact le_refl _
  · exact List.pairwise_iff_get.mp hs ⟨i, hi⟩ ⟨j, hj⟩ hlt

theorem bisectLoop_spec {α : Type} [LinearOrder α] (a : List α) (x : α)
    (hs : a.Sorted (· ≤ ·)) :
    ∀ (fuel lo hi : Nat), hi - lo ≤ fuel → lo ≤ hi → hi ≤ a.length →
    (∀ i, i < lo → a.getD i x < x) →
    (∀ i, hi ≤ i → i < a.length → ¬ a.getD i x < x) →
    (∀ i, i < bisectLoop a x fuel lo hi → a.getD i x < x) ∧
    (∀ i, bisectLoop a x fuel lo hi ≤ i → i < a.length → ¬ a.getD i x < x) ∧
    bisectLoop a x fuel lo hi ≤ a.length := by
  intro fuel
  induction fuel with
  | zero =>
      intro lo hi hfuel hlh hhi hlo hhi2
      have heq : hi = lo := by omega
      subst heq
      exact ⟨hlo, hhi2, le_trans hlh hhi⟩
  | succ n ih =>
      intro lo hi hfuel hlh hhi hlo hhi2
      by_cases hlt : lo < hi
      · rw [show bisectLoop a x (n + 1) lo hi =
            (if a.getD ((lo + hi) / 2) x < x then
              bisectLoop a x n ((lo + hi) / 2 + 1) hi
            else bisectLoop a x n lo ((lo + hi) / 2)) by
          rw [bisectLoop, if_pos hlt]]
        by_cases hcmp : a.getD ((lo + hi) / 2) x < x
        · rw [if_pos hcmp]
          refine ih ((lo + hi) / 2 + 1) hi (by omega) (by omega) hhi ?_ hhi2
          intro i hi2
          have hmlen : (lo + hi) / 2 < a.length := by omega
          exact lt_of_le_of_lt (sorted_getD_le hs (by omega) hmlen x) hcmp
        · rw [if_neg hcmp]
          refine ih lo ((lo + hi) / 2) (by omega) (by omega) (by omega) hlo ?_
          intro i hi2 hilen
          have hxle : x ≤ a.getD ((lo + hi) / 2) x := le_of_not_lt hcmp
          exact not_lt.mpr (le_trans hxle (sorted_getD_le hs hi2 hilen x))
      · rw [show bisectLoop a x (n + 1) lo hi = lo by rw [bisectLoop, if_neg hlt]]
        have heq : hi = lo := by omega
        subst heq
        exact ⟨hlo, hhi2, le_trans hlh hhi⟩

theorem bisect_left_spec {α : Type} [LinearOrder α] (a : List α) (x : α)
    (hs : a.Sorted (· ≤ ·)) :
    (∀ i, i < bisect_left a x → a.getD i x < x) ∧
    (∀ i, bisect_left a x ≤ i → i < a.length → ¬ a.getD i x < x) ∧
    bisect_left a x ≤ a.length := by
  unfold bisect_left
  exact bisectLoop_spec a x hs (a.length + 1) 0 a.length (by omega) (by omega)
    le_rfl (fun i hi => absurd hi (Nat.not_lt_zero i))
    (fun i h1 h2 => absurd h2 (by omega))

/-- C7: for every non-empty palette and monotone cumulative probability
array of the same length, `color_select` returns the palette entry at the
first index whose cumulative value is ≥ the drawn value `r`, and returns
the last palette entry when every cumulative value is < `r`.  The theorem
quantifies over the drawn value, so it covers every draw from [0, 1). -/
theorem color_select_spec {α β : Type} [LinearOrder α] [Inhabited β]
    (a : List α) (pal : List β) (r : α)
    (hs : a.Sorted (· ≤ ·)) (hlen : a.length = pal.length) (hne : pal ≠ []) :
    (∀ j, j < a.length → r ≤ a.getD j r → (∀ i, i < j → a.getD i r < r) →
        color_select a pal r = pal.getD j default) ∧
    ((∀ j, j < a.length → a.getD j r < r) →
        color_select a pal r = pal.getLastD default) := by
  obtain ⟨h1, h2, h3⟩ := bisect_left_spec a r hs
  constructor
  · intro j hj hxj hbelow
    have hbj : bisect_left a r = j := by
      by_contra hne2
      rcases Nat.lt_or_ge (bisect_left a r) j with hlt | hge
      · exact absurd (hbelow _ hlt) (h2 _ le_rfl (by omega))
      · have hjb : j < bisect_left a r := by omega
        exact absurd (h1 j hjb) (not_lt.mpr hxj)
    unfold color_select
    rw [hbj, if_pos (by omega)]
  · intro hall
    have hbl : bisect_left a r = a.length := by
      by_contra hne2
      have hlt : bisect_left a r < a.length := lt_of_le_of_ne h3 hne2
      exact absurd (hall _ hlt) (h2 _ le_rfl hlt)
    unfold color_select
    rw [hbl, hlen, if_neg (lt_irrefl _)]

/-- Witness for `color_select_spec`: cumulative array `[0, 2]` over the
two-entry palette `[10, 20]` with draw `1` selects index 1, entry 20. -/
theorem color_select_spec_witness :
    (([0, 2] : List Nat).Sorted (· ≤ ·) ∧
      ([0, 2] : List Nat).length = ([10, 20] : List Nat).length ∧
      ([10, 20] : List Nat) ≠ []) ∧
    color_select ([0, 2] : List Nat) ([10, 20] : List Nat) 1 =
      ([10, 20] : List Nat).getD 1 default :=
  ⟨⟨by decide, by decide, by decide⟩,
   (color_select_spec ([0, 2] : List Nat) ([10, 20] : List Nat) 1
       (by decide) (by decide) (by decide)).1 1 (by decide) (by decide)
     (fun i hi => by
        have hi0 : i = 0 := by omega
        subst hi0
        decide)⟩

/-! ## Claim C3 — palette sizes and block structure -/

/-- C3: for every palette built by `ColorPalette.from_image` with base
size K ≥ 1 (and enough sampled pixels for the clustering call to accept),
extending with the default list of 3 extensions yields `base_len = K`,
`length = 4K`, the invariant `base_len ≤ length`, a first block equal to
the clustering-derived base colors (cast to uint8, as the code stores
them), and one contiguous K-sized regulated block per extension triple. -/
theorem palette_from_image_extend_spec
    (resizePix : Nat → Nat → Img → (Nat → Nat → Color))
    (bgr2hsv hsv2bgr : Color → Color) (img : Img) (K : Nat) (hK : 1 ≤ K)
    (hdata : K ≤ (imgData (limit_size resizePix img 200)).length) :
    ∃ base : ColorPalette,
      ColorPalette.from_image resizePix img (K : Int) = .ok base ∧
      base.base_len = K ∧ base.colors.length = K ∧
      (base.extend bgr2hsv hsv2bgr defaultExtensions).base_len = K ∧
      (base.extend bgr2hsv hsv2bgr defaultExtensions).colors.length = 4 * K ∧
      (base.extend bgr2hsv hsv2bgr defaultExtensions).base_len ≤
        (base.extend bgr2hsv hsv2bgr defaultExtensions).colors.length ∧
      (base.extend bgr2hsv hsv2bgr defaultExtensions).colors.take K =
        base.colors.map castU8 ∧
      (base.extend bgr2hsv hsv2bgr defaultExtensions).colors =
        base.colors.map castU8 ++
        ((base.colors.map castU8).map (fun c => regulate bgr2hsv hsv2bgr c 0 50 0) ++
         ((base.colors.map castU8).map (fun c => regulate bgr2hsv hsv2bgr c 15 30 0) ++
          (base.colors.map castU8).map (fun c => regulate bgr2hsv hsv2bgr c (-15) 30 0))) := by
  have hok : kmeansCenters (imgData (limit_size resizePix img 200)) (K : Int) =
      .ok (((imgData (limit_size resizePix img 200)) ++
        List.replicate (K : Int).toNat (0, 0, 0)).take (K : Int).toNat) := by
    unfold kmeansCenters
    rw [if_neg (by omega), if_neg (by omega)]
  have hlen : (((imgData (limit_size resizePix img 200)) ++
      List.replicate (K : Int).toNat (0, 0, 0)).take (K : Int).toNat).length = K := by
    rw [List.length_take, List.length_append, List.length_replicate]
    omega
  refine ⟨ColorPalette.make (((imgData (limit_size resizePix img 200)) ++
      List.replicate (K : Int).toNat (0, 0, 0)).take (K : Int).toNat), ?_, ?_, ?_, ?_, ?_, ?_, ?_, ?_⟩
  · unfold ColorPalette.from_image
    rw [hok]
  · unfold ColorPalette.make
    simp only [gt_iff_lt, if_neg (lt_irrefl 0)]
    exact hlen
  · unfold ColorPalette.make
    exact hlen
  · unfold ColorPalette.extend ColorPalette.make
    simp only [gt_iff_lt]
    rw [if_neg (lt_irrefl 0)]
    split
    · exact hlen
    · omega
  · unfold ColorPalette.extend ColorPalette.make defaultExtensions
    simp only [List.flatMap_cons, List.flatMap_nil, List.append_nil, List.length_append,
      List.length_map]
    rw [hlen]
    ring
  · unfold ColorPalette.extend ColorPalette.make defaultExtensions
    simp only [gt_iff_lt, List.flatMap_cons, List.flatMap_nil, List.append_nil,
      List.length_append, List.length_map]
    rw [if_neg (lt_irrefl 0)]
    split
    · omega
    · omega
  · unfold ColorPalette.extend ColorPalette.make
    simp only []
    exact List.take_left' (by rw [List.length_map]; exact hlen)
  · unfold ColorPalette.extend ColorPalette.make defaultExtensions
    simp only [List.flatMap_cons, List.flatMap_nil, List.append_nil]

/-- Witness for `palette_from_image_extend_spec` on a 1 × 1 image with
base palette size 1. -/
theorem palette_from_image_extend_spec_witness :
    (1 ≤ 1 ∧
      1 ≤ (imgData (limit_size (fun _ _ im => im.pix) ⟨1, 1, fun _ _ => (1, 2, 3)⟩ 200)).length) ∧
    ∃ base : ColorPalette,
      ColorPalette.from_image (fun _ _ im => im.pix) ⟨1, 1, fun _ _ => (1, 2, 3)⟩ ((1 : Nat) : Int) = .ok base ∧
      base.base_len = 1 ∧ base.colors.length = 1 ∧
      (base.extend id id defaultExtensions).base_len = 1 ∧
      (base.extend id id defaultExtensions).colors.length = 4 * 1 ∧
      (base.extend id id defaultExtensions).base_len ≤
        (base.extend id id defaultExtensions).colors.length ∧
      (base.extend id id defaultExtensions).colors.take 1 = base.colors.map castU8 ∧
      (base.extend id id defaultExtensions).colors =
        base.colors.map castU8 ++
        ((base.colors.map castU8).map (fun c => regulate id id c 0 50 0) ++
         ((base.colors.map castU8).map (fun c => regulate id id c 15 30 0) ++
          (base.colors.map castU8).map (fun c => regulate id id c (-15) 30 0))) :=
  ⟨⟨by decide, by decide⟩,
   palette_from_image_extend_spec (fun _ _ im => im.pix) id id
     ⟨1, 1, fun _ _ => (1, 2, 3)⟩ 1 (by decide) (by decide)⟩

/-! ## Claim C8 — determinism of the pipeline -/

/-- C8: the pipeline is a pure function of the image bytes, the parameter
map, the external hooks, and the state of the seeded random source: two
runs with identical bytes, identical parameters and an identically seeded
random source produce the identical output value.  All random draws
(anchor jitter, shuffle, per-anchor uniforms) are threaded from the single
`random`-module state, and the clustering uses its own fixed seed
`random_state=42`, so no other source of nondeterminism exists in the
module. -/
theorem create_pointillism_deterministic {σ : Type} (E : Externals)
    (R : RNGOps σ) (s1 s2 : σ) (b1 b2 : List Nat) (p1 p2 : Params)
    (hb : b1 = b2) (hp : p1 = p2) (hs : s1 = s2) :
    create_pointillism E R s1 b1 p1 = create_pointillism E R s2 b2 p2 := by
  subst hb
  subst hp
  subst hs
  rfl

/-- Witness for `create_pointillism_deterministic` at a concrete
instantiation of the hooks, RNG, bytes and parameters. -/
theorem create_pointillism_deterministic_witness :
    (([] : List Nat) = [] ∧ ({} : Params) = {} ∧ () = ()) ∧
    create_pointillism extFail rngId () [] {} = create_pointillism extFail rngId () [] {} :=
  ⟨⟨rfl, rfl, rfl⟩,
   create_pointillism_deterministic extFail rngId () () [] [] {} {} rfl rfl rfl⟩

/-! ## Claim C5 — failure behaviour on bad inputs -/

/-- C5 counterexample: on an empty (undecodable) buffer the module does
fail and returns no image, but the raised error is the generic Python
`Exception` class carrying the "Ronchetti algorithm failed: ..." message
(lines 305-306) — there is no `InvalidInput` error kind anywhere in the
module, refuting the claim that the failure carries that kind. -/
theorem create_pointillism_error_kind_counterexample :
    create_pointillism extFail rngId () [] {} =
      .error ⟨"Exception", "Ronchetti algorithm failed: cannot identify image file"⟩ ∧
    ¬ ∃ m, create_pointillism extFail rngId () [] {} = .error ⟨"InvalidInput", m⟩ := by
  have h : create_pointillism extFail rngId () [] ({} : Params) =
      .error ⟨"Exception", "Ronchetti algorithm failed: cannot identify image file"⟩ := rfl
  refine ⟨h, ?_⟩
  rintro ⟨m, hm⟩
  rw [h] at hm
  have h2 : (⟨"Exception", "Ronchetti algorithm failed: cannot identify image file"⟩ :
      PyException) = ⟨"InvalidInput", m⟩ := Except.error.inj hm
  have h3 : "Exception" = "InvalidInput" := congrArg PyException.typeName h2
  exact absurd h3 (by decide)

theorem from_image_error_of_lt_one (resizePix : Nat → Nat → Img → (Nat → Nat → Color))
    (img : Img) (n : Int) (hn : n < 1) :
    ColorPalette.from_image resizePix img n =
      .error "n_clusters must be an int in the range [1, inf)" := by
  unfold ColorPalette.from_image kmeansCenters
  rw [if_pos hn]

/-- C5 (amended): for malformed image bytes, or `palette_size < 1`, or
`grid_scale < 1`, the call fails — no partial or garbled image is ever
returned — but the error raised is the module's single generic `Exception`
wrapping the cause message ("Ronchetti algorithm failed: ...") rather than
a distinguished `InvalidInput` kind (which does not exist in the code). -/
theorem create_pointillism_bad_input_fails {σ : Type} (E : Externals) (R : RNGOps σ)
    (s0 : σ) (bytes : List Nat) (p : Params)
    (hbad : (∃ m, E.decode bytes = .error m) ∨ p.palette_size < 1 ∨ p.grid_scale < 1) :
    ∃ m, create_pointillism E R s0 bytes p =
      .error ⟨"Exception", "Ronchetti algorithm failed: " ++ m⟩ := by
  cases hdec : E.decode bytes with
  | error e =>
      refine ⟨e, ?_⟩
      unfold create_pointillism
      simp only [hdec]
  | ok dec =>
      rcases hbad with ⟨m, hm⟩ | hps | hgs
      · rw [hdec] at hm
        cases hm
      · refine ⟨"n_clusters must be an int in the range [1, inf)", ?_⟩
        unfold create_pointillism
        simp only [hdec,
          from_image_error_of_lt_one E.resizePix (toBgr (toPil E dec)) p.palette_size hps]
      · cases hfi : ColorPalette.from_image E.resizePix (toBgr (toPil E dec)) p.palette_size with
        | error e2 =>
            refine ⟨e2, ?_⟩
            unfold create_pointillism
            simp only [hdec, hfi]
        | ok pal0 =>
            have hrg : randomized_grid R (toBgr (toPil E dec)).h (toBgr (toPil E dec)).w
                p.grid_scale s0 = .error "assert scale > 0" := by
              unfold randomized_grid
              rw [if_pos (by omega)]
            refine ⟨"assert scale > 0", ?_⟩
            unfold create_pointillism
            simp only [hdec, hfi, hrg]

/-- Witness for `create_pointillism_bad_input_fails` on the empty buffer
(which the decoder rejects). -/
theorem create_pointillism_bad_input_fails_witness :
    ((∃ m, extFail.decode [] = .error m) ∨ ({} : Params).palette_size < 1 ∨
      ({} : Params).grid_scale < 1) ∧
    ∃ m, create_pointillism extFail rngId () [] {} =
      .error ⟨"Exception", "Ronchetti algorithm failed: " ++ m⟩ :=
  ⟨Or.inl ⟨"cannot identify image file", rfl⟩,
   create_pointillism_bad_input_fails extFail rngId () [] {}
     (Or.inl ⟨"cannot identify image file", rfl⟩)⟩

/-! ## Claim C10 — non-RGB inputs and output shape -/

/-- C10 counterexample: a valid 1 × 1 grayscale file decodes to a
non-RGB ("L" mode) image, yet `create_pointillism` fails on it with the
default parameters: the clustering call refuses 1 pixel sample for the
default 20 clusters (sklearn raises ValueError), so the claim that
non-RGB inputs never fail is refuted — the mode conversion itself
succeeds, but the call does not always return an image. -/
theorem create_pointillism_tiny_gray_fails :
    (∃ dec, extTiny.decode [0] = .ok dec ∧ dec.mode ≠ "RGB") ∧
    create_pointillism extTiny rngId () [0] {} =
      .error ⟨"Exception", "Ronchetti algorithm failed: n_samples should be >= n_clusters"⟩ :=
  ⟨⟨⟨"L", ⟨1, 1, fun _ _ => (7, 7, 7)⟩⟩, rfl, by decide⟩, rfl⟩

/-- C10 (amended): whatever the decoded mode is, whenever the call
returns an image at all it is an RGB-mode image with exactly the decoded
input's height and width (a non-RGB decode is converted to RGB before any
processing and the conversion preserves the grid shape); the call may
still fail for reasons unrelated to the mode, as the counterexample
shows. -/
theorem create_pointillism_output_dims {σ : Type} (E : Externals) (R : RNGOps σ)
    (s0 : σ) (bytes : List Nat) (p : Params) (dec : Decoded) (out : Decoded)
    (hdec : E.decode bytes = .ok dec)
    (hok : create_pointillism E R s0 bytes p = .ok out) :
    out.mode = "RGB" ∧ out.img.h = dec.img.h ∧ out.img.w = dec.img.w := by
  unfold create_pointillism at hok
  simp only [hdec] at hok
  cases hfi : ColorPalette.from_image E.resizePix (toBgr (toPil E dec)) p.palette_size with
  | error e =>
      rw [hfi] at hok
      simp at hok
  | ok pal0 =>
      simp only [hfi] at hok
      cases hrg : randomized_grid R (toBgr (toPil E dec)).h (toBgr (toPil E dec)).w
          p.grid_scale s0 with
      | error e =>
          rw [hrg] at hok
          simp at hok
      | ok pr =>
          rcases pr with ⟨grid, s1⟩
          simp only [hrg] at hok
          have hinj := Except.ok.inj hok
          rw [← hinj]
          refine ⟨rfl, ?_, ?_⟩
          · show (toBgr (toPil E dec)).h = dec.img.h
            unfold toBgr toPil
            split <;> rfl
          · show (toBgr (toPil E dec)).w = dec.img.w
            unfold toBgr toPil
            split <;> rfl

/-- Decoded 5 × 5 grayscale image used for the successful-run witness. -/
def decOk : Decoded := ⟨"L", ⟨5, 5, fun _ _ => (7, 7, 7)⟩⟩

/-- External hooks whose decoder yields `decOk` (25 pixel samples, enough
for the default 20 clusters). -/
noncomputable def extOk : Externals := { extFail with decode := fun _ => .ok decOk }

/-- Witness for `create_pointillism_output_dims`: a run on the decoded
5 × 5 "L"-mode image succeeds and returns a 5 × 5 RGB image. -/
theorem create_pointillism_output_dims_witness :
    ∃ out, extOk.decode [0] = .ok decOk ∧
      create_pointillism extOk rngId () [0] ({} : Params) = .ok out ∧
      (out.mode = "RGB" ∧ out.img.h = decOk.img.h ∧ out.img.w = decOk.img.w) := by
  obtain ⟨out, hout⟩ : ∃ out, create_pointillism extOk rngId () [0] ({} : Params) = .ok out :=
    ⟨_, rfl⟩
  exact ⟨out, rfl, hout,
    create_pointillism_output_dims extOk rngId () [0] {} decOk out rfl hout⟩

/-! ## Claim C9 — gradient field on flat regions -/

theorem reflect101_eq (n : Nat) (i : Int) (h0 : 0 ≤ i) (h : i < n) :
    reflect101 n i = i.toNat := by
  unfold reflect101
  by_cases h1 : n ≤ 1
  · rw [if_pos h1]
    omega
  · rw [if_neg h1]
    have hp : i % ((2 * n - 2 : Nat) : Int) = i := by
      apply Int.emod_eq_of_lt h0
      omega
    simp only [hp]
    rw [if_pos (by omega : i.toNat < n)]

theorem conv2d_eq_zero (r : Nat) (ker : Nat → Nat → ℝ) (f : Int → Int → ℝ) (i j : Int)
    (hf : ∀ a b : Int, i - r ≤ a → a ≤ i + r → j - r ≤ b → b ≤ j + r → f a b = 0) :
    conv2d r ker f i j = 0 := by
  unfold conv2d
  apply Finset.sum_eq_zero
  intro a ha
  apply Finset.sum_eq_zero
  intro b hb
  rw [Finset.mem_range] at ha hb
  rw [hf (i + a - r) (j + b - r) (by omega) (by omega) (by omega) (by omega), mul_zero]

theorem conv2d_scharrKx_const (f : Int → Int → ℝ) (c : ℝ) (i j : Int)
    (hf : ∀ a b : Int, i - 1 ≤ a → a ≤ i + 1 → j - 1 ≤ b → b ≤ j + 1 → f a b = c) :
    conv2d 1 scharrKx f i j = 0 := by
  have step : ∀ a ∈ Finset.range (2 * 1 + 1), ∀ b ∈ Finset.range (2 * 1 + 1),
      scharrKx a b * f (i + a - 1) (j + b - 1) = scharrKx a b * c := by
    intro a ha b hb
    rw [Finset.mem_range] at ha hb
    rw [hf (i + a - 1) (j + b - 1) (by omega) (by omega) (by omega) (by omega)]
  have hcongr : (∑ a ∈ Finset.range (2 * 1 + 1), ∑ b ∈ Finset.range (2 * 1 + 1),
      scharrKx a b * f (i + a - 1) (j + b - 1)) =
      ∑ a ∈ Finset.range (2 * 1 + 1), ∑ b ∈ Finset.range (2 * 1 + 1), scharrKx a b * c :=
    Finset.sum_congr rfl (fun a ha => Finset.sum_congr rfl (fun b hb => step a ha b hb))
  unfold conv2d
  simp only [Nat.cast_one]
  rw [hcongr]
  simp [Finset.sum_range_succ, scharrKx]

theorem conv2d_scharrKy_const (f : Int → Int → ℝ) (c : ℝ) (i j : Int)
    (hf : ∀ a b : Int, i - 1 ≤ a → a ≤ i + 1 → j - 1 ≤ b → b ≤ j + 1 → f a b = c) :
    conv2d 1 scharrKy f i j = 0 := by
  have step : ∀ a ∈ Finset.range (2 * 1 + 1), ∀ b ∈ Finset.range (2 * 1 + 1),
      scharrKy a b * f (i + a - 1) (j + b - 1) = scharrKy a b * c := by
    intro a ha b hb
    rw [Finset.mem_range] at ha hb
    rw [hf (i + a - 1) (j + b - 1) (by omega) (by omega) (by omega) (by omega)]
  have hcongr : (∑ a ∈ Finset.range (2 * 1 + 1), ∑ b ∈ Finset.range (2 * 1 + 1),
      scharrKy a b * f (i + a - 1) (j + b - 1)) =
      ∑ a ∈ Finset.range (2 * 1 + 1), ∑ b ∈ Finset.range (2 * 1 + 1), scharrKy a b * c :=
    Finset.sum_congr rfl (fun a ha => Finset.sum_congr rfl (fun b hb => step a ha b hb))
  unfold conv2d
  simp only [Nat.cast_one]
  rw [hcongr]
  simp [Finset.sum_range_succ, scharrKy]
  ring

/-- C9: at every pixel deep enough inside a flat (constant-color) region
of the luminance grid — at distance more than the combined Scharr and
smoothing support `radius + 1` from the region boundary and the image
border — the smoothed gradient field has magnitude exactly 0, and the
direction query does not fail: it is total and returns the stable value 0
(the `atan2 0 0 = 0` convention of `math.atan2`). -/
theorem flat_region_gradient_zero (h w : Nat) (gray : Nat → Nat → ℝ) (c : ℝ)
    (gker : Nat → Nat → ℝ) (radius : Nat) (i j : Nat)
    (hi1 : radius + 2 ≤ i) (hi2 : i + radius + 2 ≤ h)
    (hj1 : radius + 2 ≤ j) (hj2 : j + radius + 2 ≤ w)
    (hflat : ∀ a b : Nat, i - (radius + 1) ≤ a → a ≤ i + radius + 1 →
        j - (radius + 1) ≤ b → b ≤ j + radius + 1 → gray a b = c) :
    ((VectorField.from_gradient h w gray).smooth gker radius).magnitude i j = 0 ∧
    ((VectorField.from_gradient h w gray).smooth gker radius).direction i j = 0 := by
  have hfx : ∀ a b : Nat, i - radius ≤ a → a ≤ i + radius → j - radius ≤ b →
      b ≤ j + radius → (VectorField.from_gradient h w gray).fieldx a b = 0 := by
    intro a b ha1 ha2 hb1 hb2
    have h0 : conv2d 1 scharrKx (extend101 h w gray) (a : Int) (b : Int) = 0 := by
      apply conv2d_scharrKx_const (extend101 h w gray) c
      intro u v hu1 hu2 hv1 hv2
      unfold extend101
      rw [reflect101_eq h u (by omega) (by omega), reflect101_eq w v (by omega) (by omega)]
      exact hflat u.toNat v.toNat (by omega) (by omega) (by omega) (by omega)
    show conv2d 1 scharrKx (extend101 h w gray) a b / 15.36 = 0
    rw [h0, zero_div]
  have hfy : ∀ a b : Nat, i - radius ≤ a → a ≤ i + radius → j - radius ≤ b →
      b ≤ j + radius → (VectorField.from_gradient h w gray).fieldy a b = 0 := by
    intro a b ha1 ha2 hb1 hb2
    have h0 : conv2d 1 scharrKy (extend101 h w gray) (a : Int) (b : Int) = 0 := by
      apply conv2d_scharrKy_const (extend101 h w gray) c
      intro u v hu1 hu2 hv1 hv2
      unfold extend101
      rw [reflect101_eq h u (by omega) (by omega), reflect101_eq w v (by omega) (by omega)]
      exact hflat u.toNat v.toNat (by omega) (by omega) (by omega) (by omega)
    show conv2d 1 scharrKy (extend101 h w gray) a b / 15.36 = 0
    rw [h0, zero_div]
  have hbx : blurPass gker radius h w (VectorField.from_gradient h w gray).fieldx i j = 0 := by
    unfold blurPass
    apply conv2d_eq_zero
    intro u v hu1 hu2 hv1 hv2
    unfold extend101
    rw [reflect101_eq h u (by omega) (by omega), reflect101_eq w v (by omega) (by omega)]
    exact hfx u.toNat v.toNat (by omega) (by omega) (by omega) (by omega)
  have hby : blurPass gker radius h w (VectorField.from_gradient h w gray).fieldy i j = 0 := by
    unfold blurPass
    apply conv2d_eq_zero
    intro u v hu1 hu2 hv1 hv2
    unfold extend101
    rw [reflect101_eq h u (by omega) (by omega), reflect101_eq w v (by omega) (by omega)]
    exact hfy u.toNat v.toNat (by omega) (by omega) (by omega) (by omega)
  have hsm : (VectorField.from_gradient h w gray).smooth gker radius =
      ⟨h, w, blurPass gker radius h w (VectorField.from_gradient h w gray).fieldx,
       blurPass gker radius h w (VectorField.from_gradient h w gray).fieldy⟩ := rfl
  rw [hsm]
  constructor
  · unfold VectorField.magnitude
    simp only [hbx, hby]
    norm_num
  · unfold VectorField.direction
    simp only [hbx, hby]
    unfold atan2
    norm_num

/-- Witness for `flat_region_gradient_zero` on a constant 10 × 10 grid
with smoothing radius 0, queried at the interior pixel (2, 2). -/
theorem flat_region_gradient_zero_witness :
    (0 + 2 ≤ 2 ∧ 2 + 0 + 2 ≤ 10 ∧ 0 + 2 ≤ 2 ∧ 2 + 0 + 2 ≤ 10) ∧
    ((VectorField.from_gradient 10 10 (fun _ _ => (3 : ℝ))).smooth
        (fun _ _ => 0) 0).magnitude 2 2 = 0 ∧
    ((VectorField.from_gradient 10 10 (fun _ _ => (3 : ℝ))).smooth
        (fun _ _ => 0) 0).direction 2 2 = 0 :=
  ⟨⟨by decide, by decide, by decide, by decide⟩,
   flat_region_gradient_zero 10 10 (fun _ _ => 3) 3 (fun _ _ => 0) 0 2 2
     (by decide) (by decide) (by decide) (by decide)
     (fun a b _ _ _ _ => rfl)⟩
